import Mathlib

/-!
Shallow embedding of the Jira issue pipeline (`src/utils/jira_pipeline.py`):
the text sanitizer `clean_text`, the issue normalizer `normalize_issues`,
the persistence writer `save_to_jsonl`, and the fetch orchestrator
`fetch_jira_tokens`.  Python dynamic values are modelled by `PyVal`;
raising Python code is modelled with `Except String`.
-/

set_option maxHeartbeats 1000000

/-- Model of a dynamically typed Python value as it flows through the
pipeline: `None`, booleans, integers, strings, lists and dicts (dicts keep
insertion order, as Python dicts do). -/
inductive PyVal where
  | none
  | bool (b : Bool)
  | int (n : Int)
  | str (s : String)
  | list (xs : List PyVal)
  | dict (entries : List (String × PyVal))
deriving Repr

/-- Python truthiness (`bool(x)`): `None`, `""`, `0`, `False`, empty list
and empty dict are falsy; everything else is truthy. -/
def pyTruthy : PyVal → Bool
  | PyVal.none => false
  | PyVal.bool b => b
  | PyVal.int n => n != 0
  | PyVal.str s => !s.isEmpty
  | PyVal.list xs => !xs.isEmpty
  | PyVal.dict es => !es.isEmpty

/-- First binding of a key in a Python dict (keys are unique in a real
dict; first match models the dict lookup). -/
def dictLookup (entries : List (String × PyVal)) (k : String) : Option PyVal :=
  match entries with
  | [] => Option.none
  | (k', v) :: rest => if k' = k then some v else dictLookup rest k

/-- Python `obj.get(k, default)`: only dicts have `.get`; on any other
value Python raises `AttributeError`. -/
def pyGet (v : PyVal) (k : String) (default : PyVal) : Except String PyVal :=
  match v with
  | PyVal.dict entries => Except.ok ((dictLookup entries k).getD default)
  | _ => Except.error "AttributeError: object has no attribute get"

/-! ### Character classes used by the sanitizer's regexes

Python's `\s` and `\w` are modelled over their ASCII meaning, which covers
every character the pipeline's regexes are applied to in the claims. -/

/-- Python regex `\s` (ASCII): space, tab, newline, carriage return,
vertical tab, form feed. -/
def isSpaceChar (c : Char) : Bool :=
  c = ' ' || c = '\t' || c = '\n' || c = '\r' || c = '\x0b' || c = '\x0c'

/-- Python regex `\w` (ASCII): letters, digits, underscore. -/
def isWordChar (c : Char) : Bool :=
  c.isAlphanum || c = '_'

/-- Character class `[\w\.-]` from the email regex on line 98. -/
def isLocalChar (c : Char) : Bool :=
  isWordChar c || c = '.' || c = '-'

/-! ### HTML stripping (`BeautifulSoup(text, "html.parser").get_text(separator=" ")`)

Modelled as: every `<...>` tag span is replaced by a single separating
space between adjacent text runs; an unterminated tag at the end of input
produces no text (html.parser discards the incomplete tag).  Entity
decoding is not modelled (no claim involves entities).  Because
`clean_text` collapses whitespace immediately afterwards, replacing each
tag by one space is observationally the same as joining text nodes with
one space. -/

/-- Tag-stripping automaton: the `Bool` records whether we are inside a
`<...>` span. -/
def stripTagsAux : Bool → List Char → List Char
  | _, [] => []
  | true, c :: rest => if c = '>' then stripTagsAux false rest else stripTagsAux true rest
  | false, c :: rest =>
      if c = '<' then ' ' :: stripTagsAux true rest else c :: stripTagsAux false rest

/-- Text content of a markup fragment, with `" "` as tag separator. -/
def stripTags (cs : List Char) : List Char := stripTagsAux false cs

/-- Model of `re.sub(r"\s+", " ", text)`: every maximal run of whitespace
becomes one space. -/
def collapseWs : List Char → List Char
  | [] => []
  | c :: rest =>
    if isSpaceChar c then
      match rest with
      | [] => [' ']
      | d :: _ => if isSpaceChar d then collapseWs rest else ' ' :: collapseWs rest
    else c :: collapseWs rest

/-- Python `str.strip()`: drop leading and trailing whitespace. -/
def pyStrip (cs : List Char) : List Char :=
  ((cs.dropWhile isSpaceChar).reverse.dropWhile isSpaceChar).reverse

/-! ### Email redaction (`re.sub(r"[\w\.-]+@[\w\.-]+\.\w+", "[REDACTED]", text)`)

A direct backtracking matcher for the pattern, with Python `re`
semantics: leftmost match, greedy quantifiers with backtracking. -/

/-- Match of `\.\w+` at the head of the input (length consumed). -/
def matchDotW (cs : List Char) : Option Nat :=
  match cs with
  | '.' :: rest =>
      let w := rest.takeWhile isWordChar
      if w.isEmpty then Option.none else some (1 + w.length)
  | _ => Option.none

/-- Match of `[\w\.-]+\.\w+` at the head of the input: greedy `+` with
backtracking (extend the run first; on failure, fall back to matching
`\.\w+` right after the current character). -/
def matchLocDotW : List Char → Option Nat
  | [] => Option.none
  | c :: rest =>
    if isLocalChar c then
      match matchLocDotW rest with
      | some n => some (n + 1)
      | Option.none => (matchDotW rest).map (· + 1)
    else Option.none

/-- Match of the whole email pattern `[\w\.-]+@[\w\.-]+\.\w+` at the head
of the input (length consumed).  The local part is the maximal `[\w\.-]`
run (a shorter run would be followed by another `[\w\.-]` character, not
by `@`, so greedy-with-backtracking reduces to maximal-run-then-`@`). -/
def matchEmail (cs : List Char) : Option Nat :=
  let loc := cs.takeWhile isLocalChar
  if loc.isEmpty then Option.none
  else
    match cs.dropWhile isLocalChar with
    | '@' :: rest => (matchLocDotW rest).map (fun n => loc.length + 1 + n)
    | _ => Option.none

/-- `re.sub` scan: at each position try the email pattern; on a match emit
`[REDACTED]` and resume after the match, otherwise emit the character.
The fuel argument only bounds the recursion (every match consumes at
least the head character); it is irrelevant once it is at least the
input length (`redactAux_fuel` below). -/
def redactAux : Nat → List Char → List Char
  | 0, cs => cs
  | _ + 1, [] => []
  | fuel + 1, c :: rest =>
    match matchEmail (c :: rest) with
    | some n => "[REDACTED]".data ++ redactAux fuel (rest.drop (n - 1))
    | Option.none => c :: redactAux fuel rest

/-- The `re.sub` email redaction of line 98. -/
def redactEmails (cs : List Char) : List Char := redactAux cs.length cs

/-! ### JSON serialization

`escChar` models the string escaping shared by Python's `json` module and
pydantic's serializer on the inputs the pipeline produces: the two-char
escapes for quote, backslash, newline, tab, carriage return, backspace and
form feed, `\u00XX` for the remaining control characters, and all other
characters verbatim.  (Python's `json.dumps` would additionally
`\uXXXX`-escape code points above 1 byte; pydantic does not.  The claims
only exercise the common behaviour.) -/

/-- Lowercase hex digit. -/
def hexDigitChar (n : Nat) : Char :=
  if n < 10 then Char.ofNat (48 + n) else Char.ofNat (87 + n)

/-- JSON escape of one character. -/
def escChar (c : Char) : List Char :=
  if c = '"' then ['\\', '"']
  else if c = '\\' then ['\\', '\\']
  else if c = '\n' then ['\\', 'n']
  else if c = '\t' then ['\\', 't']
  else if c = '\r' then ['\\', 'r']
  else if c = '\x08' then ['\\', 'b']
  else if c = '\x0c' then ['\\', 'f']
  else if c.toNat < 32 then
    ['\\', 'u', '0', '0', hexDigitChar (c.toNat / 16), hexDigitChar (c.toNat % 16)]
  else [c]

/-- JSON escape of a character list. -/
def escList : List Char → List Char
  | [] => []
  | c :: cs => escChar c ++ escList cs

/-- A JSON string literal with quotes. -/
def jsonQuote (s : String) : String :=
  String.mk ('"' :: (escList s.data ++ ['"']))

mutual
/-- Model of Python `json.dumps(value)` with default options: separators
`", "` and `": "`, dict entries in insertion order. -/
def json_dumps : PyVal → String
  | PyVal.none => "null"
  | PyVal.bool true => "true"
  | PyVal.bool false => "false"
  | PyVal.int n => toString n
  | PyVal.str s => jsonQuote s
  | PyVal.list xs => "[" ++ jsonDumpsList xs ++ "]"
  | PyVal.dict es => "\x7b" ++ jsonDumpsEntries es ++ "\x7d"

/-- Comma-separated serialization of list elements. -/
def jsonDumpsList : List PyVal → String
  | [] => ""
  | [x] => json_dumps x
  | x :: y :: xs => json_dumps x ++ ", " ++ jsonDumpsList (y :: xs)

/-- Comma-separated serialization of dict entries. -/
def jsonDumpsEntries : List (String × PyVal) → String
  | [] => ""
  | [(k, v)] => jsonQuote k ++ ": " ++ json_dumps v
  | (k, v) :: e :: es => jsonQuote k ++ ": " ++ json_dumps v ++ ", " ++ jsonDumpsEntries (e :: es)
end

/-- Sanitization pipeline applied to a string input of `clean_text`
(lines 91-98 of the source): strip markup, collapse whitespace, strip,
redact emails. -/
def sanitizeStr (s : String) : String :=
  String.mk (redactEmails (pyStrip (collapseWs (stripTags s.data))))

/-- Model of `clean_text` (lines 83-100).  `if not text: return ""`;
dicts are serialized with `json.dumps`; strings go through
BeautifulSoup / whitespace collapse / email redaction (BeautifulSoup's
html.parser does not fail on any string, so the regex fallback on line 95
is unreachable for strings); any other truthy value makes BeautifulSoup
raise (caught on line 94), after which `re.sub` on line 97 raises an
uncaught `TypeError` because its input is not a string. -/
def clean_text (text : PyVal) : Except String String :=
  if pyTruthy text = false then Except.ok ""
  else
    match text with
    | PyVal.dict es => Except.ok (json_dumps (PyVal.dict es))
    | PyVal.str s => Except.ok (sanitizeStr s)
    | _ => Except.error "TypeError: expected string or bytes-like object"

/-! ### The issue normalizer (`normalize_issues`, lines 102-125) -/

/-- The flat issue record (pydantic model `JiraIssue`, lines 24-33): every
field is `Optional[str]`. -/
structure JiraIssue where
  id : Option String
  key : Option String
  summary : Option String
  description : Option String
  status : Option String
  priority : Option String
  created : Option String
  assignee : Option String
  project : Option String
deriving DecidableEq, Repr

/-- Pydantic validation of an `Optional[str]` field (v2, lax mode): `None`
and strings are accepted, everything else is a `ValidationError`. -/
def asOptStr : PyVal → Except String (Option String)
  | PyVal.none => Except.ok Option.none
  | PyVal.str s => Except.ok (some s)
  | _ => Except.error "ValidationError: input should be a valid string"

/-- `issue.get("fields", {})` (line 107). -/
def getFields (issue : PyVal) : Except String PyVal :=
  pyGet issue "fields" (PyVal.dict [])

/-- `fields.get(k, {}).get("name")` (lines 115-116): the parent defaults
to an empty dict, so a missing parent yields `None`, while a present
non-dict parent raises. -/
def getName (fields : PyVal) (k : String) : Except String PyVal := do
  let parent ← pyGet fields k (PyVal.dict [])
  pyGet parent "name" PyVal.none

/-- `fields.get(k, {}).get(attr) if fields.get(k) else None`
(lines 118-121): the guard is evaluated first; when it is truthy the key
is present, so `fields.get(k, {})` is the looked-up value itself. -/
def getGuarded (fields : PyVal) (k attr : String) : Except String PyVal := do
  let v ← pyGet fields k PyVal.none
  if pyTruthy v then pyGet v attr PyVal.none else Except.ok PyVal.none

/-- One iteration of the loop in `normalize_issues` (lines 106-123):
extraction in the constructor's argument order, then pydantic validation
of the `JiraIssue` fields.  Any raise aborts the whole loop. -/
def normalizeIssue (issue : PyVal) : Except String JiraIssue := do
  let fields ← getFields issue
  let idv ← pyGet issue "id" PyVal.none
  let keyv ← pyGet issue "key" PyVal.none
  let summaryv ← pyGet fields "summary" PyVal.none
  let descv ← pyGet fields "description" PyVal.none
  let desc ← clean_text descv
  let statusv ← getName fields "status"
  let priorityv ← getName fields "priority"
  let createdv ← pyGet fields "created" PyVal.none
  let assigneev ← getGuarded fields "assignee" "displayName"
  let projectv ← getGuarded fields "project" "name"
  let id ← asOptStr idv
  let key ← asOptStr keyv
  let summary ← asOptStr summaryv
  let status ← asOptStr statusv
  let priority ← asOptStr priorityv
  let created ← asOptStr createdv
  let assignee ← asOptStr assigneev
  let project ← asOptStr projectv
  Except.ok ⟨id, key, summary, some desc, status, priority, created, assignee, project⟩

/-- Normalization of a list of raw issues, in order, stopping at the
first fault. -/
def normList : List PyVal → Except String (List JiraIssue)
  | [] => Except.ok []
  | x :: xs => do
      let y ← normalizeIssue x
      let ys ← normList xs
      Except.ok (y :: ys)

/-- Python iteration (`for issue in issues`): lists yield their elements,
strings their one-character substrings, dicts their keys; other values
raise `TypeError`. -/
def pyIter : PyVal → Except String (List PyVal)
  | PyVal.list xs => Except.ok xs
  | PyVal.str s => Except.ok (s.data.map (fun c => PyVal.str (String.mk [c])))
  | PyVal.dict es => Except.ok (es.map (fun kv => PyVal.str kv.1))
  | _ => Except.error "TypeError: object is not iterable"

/-- Model of `normalize_issues` (lines 102-125). -/
def normalize_issues (issues : PyVal) : Except String (List JiraIssue) := do
  normList (← pyIter issues)

/-! ### Well-formedness of a raw issue

`isRawIssueOk` is the (decidable) domain on which the dynamic field
accesses and pydantic validations of `normalizeIssue` cannot raise: the
issue is a dict, `fields` (when present) is a dict, leaf fields are
absent/`None`/strings, `status`/`priority`/`assignee`/`project` (when
present and, for the guarded ones, truthy) are dicts with
absent/`None`/string name attributes, and `description` is something
`clean_text` accepts.  Records with missing keys at any level are
well-formed. -/

/-- A value that pydantic accepts for an `Optional[str]` field. -/
def isOptStrVal : PyVal → Bool
  | PyVal.none => true
  | PyVal.str _ => true
  | _ => false

/-- A direct leaf: absent, `None`, or a string. -/
def validLeaf : Option PyVal → Bool
  | Option.none => true
  | some v => isOptStrVal v

/-- A value on which `clean_text` does not raise: falsy, a string, or a
dict. -/
def cleanableVal : PyVal → Bool
  | PyVal.str _ => true
  | PyVal.dict _ => true
  | v => !pyTruthy v

/-- The `status`/`priority` shape: absent, or a dict whose `name` is a
valid leaf. -/
def isNameOk (fe : List (String × PyVal)) (k : String) : Bool :=
  match dictLookup fe k with
  | Option.none => true
  | some (PyVal.dict d) => validLeaf (dictLookup d "name")
  | some _ => false

/-- The guarded `assignee`/`project` shape: absent or falsy, or a truthy
dict whose attribute is a valid leaf. -/
def isGuardOk (fe : List (String × PyVal)) (k attr : String) : Bool :=
  match dictLookup fe k with
  | Option.none => true
  | some v =>
    if pyTruthy v then
      match v with
      | PyVal.dict d => validLeaf (dictLookup d attr)
      | _ => false
    else true

/-- Well-formedness of the `fields` sub-dict. -/
def isFieldsOk (fe : List (String × PyVal)) : Bool :=
  validLeaf (dictLookup fe "summary") &&
  validLeaf (dictLookup fe "created") &&
  (match dictLookup fe "description" with
   | Option.none => true
   | some v => cleanableVal v) &&
  isNameOk fe "status" &&
  isNameOk fe "priority" &&
  isGuardOk fe "assignee" "displayName" &&
  isGuardOk fe "project" "name"

/-- Well-formedness of a raw issue (the spec's RawIssue: a possibly
sparse nested mapping with string-or-absent leaves). -/
def isRawIssueOk : PyVal → Bool
  | PyVal.dict ie =>
    validLeaf (dictLookup ie "id") &&
    validLeaf (dictLookup ie "key") &&
    (match dictLookup ie "fields" with
     | Option.none => true
     | some (PyVal.dict fe) => isFieldsOk fe
     | some _ => false)
  | _ => false

/-! ### A total description of normalization on well-formed raw issues -/

/-- The `fields` entries a well-formed issue dict presents to the loop
(the `{}` default when the key is absent). -/
def feOf (ie : List (String × PyVal)) : List (String × PyVal) :=
  match dictLookup ie "fields" with
  | some (PyVal.dict fe) => fe
  | _ => []

/-- The string a leaf lookup contributes (`None`/absent give absence). -/
def optStrOf (o : Option PyVal) : Option String :=
  match o with
  | some (PyVal.str s) => some s
  | _ => Option.none

/-- What `clean_text` returns on a value it accepts. -/
def cleanStr (v : PyVal) : String :=
  if pyTruthy v = false then ""
  else
    match v with
    | PyVal.dict es => json_dumps (PyVal.dict es)
    | PyVal.str s => sanitizeStr s
    | _ => ""

/-- The `.name` extraction for `status`/`priority`. -/
def nameOpt (fe : List (String × PyVal)) (k : String) : Option String :=
  match dictLookup fe k with
  | some (PyVal.dict d) => optStrOf (dictLookup d "name")
  | _ => Option.none

/-- The guarded extraction for `assignee`/`project`. -/
def guardOpt (fe : List (String × PyVal)) (k attr : String) : Option String :=
  match dictLookup fe k with
  | some v =>
    if pyTruthy v then
      match v with
      | PyVal.dict d => optStrOf (dictLookup d attr)
      | _ => Option.none
    else Option.none
  | Option.none => Option.none

/-- The raw `PyVal` the `status`/`priority` extraction produces before
validation. -/
def nameRaw (fe : List (String × PyVal)) (k : String) : PyVal :=
  match dictLookup fe k with
  | some (PyVal.dict d) => (dictLookup d "name").getD PyVal.none
  | _ => PyVal.none

/-- The raw `PyVal` the guarded `assignee`/`project` extraction produces
before validation. -/
def guardRaw (fe : List (String × PyVal)) (k attr : String) : PyVal :=
  match dictLookup fe k with
  | some v =>
    if pyTruthy v then
      match v with
      | PyVal.dict d => (dictLookup d attr).getD PyVal.none
      | _ => PyVal.none
    else PyVal.none
  | Option.none => PyVal.none

/-- Total normalization function on well-formed issue dicts; proved below
to agree with `normalizeIssue` on the well-formed domain. -/
def specNormalize (ie : List (String × PyVal)) : JiraIssue :=
  let fe := feOf ie
  { id := optStrOf (dictLookup ie "id")
    key := optStrOf (dictLookup ie "key")
    summary := optStrOf (dictLookup fe "summary")
    description := some (cleanStr ((dictLookup fe "description").getD PyVal.none))
    status := nameOpt fe "status"
    priority := nameOpt fe "priority"
    created := optStrOf (dictLookup fe "created")
    assignee := guardOpt fe "assignee" "displayName"
    project := guardOpt fe "project" "name" }

/-- Lift of `specNormalize` to arbitrary values (junk outside dicts). -/
def specNormalizeV : PyVal → JiraIssue
  | PyVal.dict ie => specNormalize ie
  | _ => ⟨Option.none, Option.none, Option.none, some "", Option.none,
          Option.none, Option.none, Option.none, Option.none⟩

/-! ### The persistence writer (`save_to_jsonl`, lines 127-131) -/

/-- Serialization of one `Optional[str]` field value. -/
def dumpOptStr : Option String → String
  | Option.none => "null"
  | some s => jsonQuote s

/-- Model of pydantic's `item.model_dump_json()` (line 131): compact
separators, fields in declaration order, `None` as `null`. -/
def model_dump_json (it : JiraIssue) : String :=
  "\x7b\"id\":" ++ dumpOptStr it.id ++
  ",\"key\":" ++ dumpOptStr it.key ++
  ",\"summary\":" ++ dumpOptStr it.summary ++
  ",\"description\":" ++ dumpOptStr it.description ++
  ",\"status\":" ++ dumpOptStr it.status ++
  ",\"priority\":" ++ dumpOptStr it.priority ++
  ",\"created\":" ++ dumpOptStr it.created ++
  ",\"assignee\":" ++ dumpOptStr it.assignee ++
  ",\"project\":" ++ dumpOptStr it.project ++ "\x7d"

/-- The full text `save_to_jsonl` writes (the loop on lines 130-131):
one newline-terminated serialized record per issue, in order. -/
def jsonlContent : List JiraIssue → String
  | [] => ""
  | it :: rest => model_dump_json it ++ "\n" ++ jsonlContent rest

/-- The filesystem, as a name-to-content map (later bindings shadow
earlier ones, modelling mode-`"w"` overwrite). -/
def Files := List (String × String)

/-- Content of a file. -/
def lookupFile (files : Files) (name : String) : Option String :=
  match files with
  | [] => Option.none
  | (n, c) :: rest => if n = name then some c else lookupFile rest name

/-- Model of `save_to_jsonl` (lines 127-131): `open(filename, "w")` either
faults (modelled by `fault`) leaving the filesystem unchanged, or
truncates the target and writes every record as one newline-terminated
line, in input order. -/
def save_to_jsonl (fault : Option String) (data : List JiraIssue) (filename : String)
    (files : Files) : Except String Files :=
  match fault with
  | some msg => Except.error msg
  | Option.none => Except.ok ((filename, jsonlContent data) :: files)

/-! ### Reading the target back: line splitting and a line parser -/

/-- Split file content into its newline-separated lines (the text after
the final newline, when nonempty, is a last line). -/
def splitLinesAux (acc : List Char) : List Char → List (List Char)
  | [] => if acc.isEmpty then [] else [acc.reverse]
  | c :: rest =>
    if c = '\n' then acc.reverse :: splitLinesAux [] rest
    else splitLinesAux (c :: acc) rest

/-- Lines of a file's content. -/
def splitLines (cs : List Char) : List (List Char) := splitLinesAux [] cs

/-- Expect a literal prefix, returning the remainder. -/
def expectLit : List Char → List Char → Option (List Char)
  | [], cs => some cs
  | _ :: _, [] => Option.none
  | p :: ps, c :: cs => if c = p then expectLit ps cs else Option.none

/-- Value of a hex digit character. -/
def hexVal? (c : Char) : Option Nat :=
  if '0' ≤ c ∧ c ≤ '9' then some (c.toNat - 48)
  else if 'a' ≤ c ∧ c ≤ 'f' then some (c.toNat - 87)
  else if 'A' ≤ c ∧ c ≤ 'F' then some (c.toNat - 55)
  else Option.none

/-- The character a two-character JSON escape denotes. -/
def unescapeChar (e : Char) : Option Char :=
  if e = '"' then some '"'
  else if e = '\\' then some '\\'
  else if e = 'n' then some '\n'
  else if e = 't' then some '\t'
  else if e = 'r' then some '\r'
  else if e = 'b' then some '\x08'
  else if e = 'f' then some '\x0c'
  else Option.none

/-- Parse a JSON string body up to its closing quote, returning the
decoded content and the remainder after the quote. -/
def parseStrBody : List Char → Option (List Char × List Char)
  | [] => Option.none
  | c :: rest =>
    if c = '"' then some ([], rest)
    else if c = '\\' then
      match rest with
      | [] => Option.none
      | e :: rest2 =>
        if e = 'u' then
          match rest2 with
          | h1 :: h2 :: h3 :: h4 :: rest3 =>
            match hexVal? h1, hexVal? h2, hexVal? h3, hexVal? h4, parseStrBody rest3 with
            | some v1, some v2, some v3, some v4, some (cs, r) =>
                some (Char.ofNat (((v1 * 16 + v2) * 16 + v3) * 16 + v4) :: cs, r)
            | _, _, _, _, _ => Option.none
          | _ => Option.none
        else
          match unescapeChar e, parseStrBody rest2 with
          | some esc, some (cs, r) => some (esc :: cs, r)
          | _, _ => Option.none
    else
      match parseStrBody rest with
      | some (cs, r) => some (c :: cs, r)
      | Option.none => Option.none

/-- Parse a JSON `null`-or-string value. -/
def parseOptStr (cs : List Char) : Option (Option String × List Char) :=
  match cs with
  | '"' :: rest => (parseStrBody rest).map (fun p => (some (String.mk p.1), p.2))
  | 'n' :: 'u' :: 'l' :: 'l' :: rest => some (Option.none, rest)
  | _ => Option.none

/-- Expect a literal key prefix and then parse its `null`-or-string
value. -/
def parseFieldAfter (lit : List Char) (cs : List Char) : Option (Option String × List Char) :=
  match expectLit lit cs with
  | some r => parseOptStr r
  | Option.none => Option.none

/-- Parse one persisted line back into the nine-field record. -/
def parseIssueLine (line : List Char) : Option JiraIssue :=
  match parseFieldAfter "\x7b\"id\":".data line with
  | Option.none => Option.none
  | some (id, r1) =>
  match parseFieldAfter ",\"key\":".data r1 with
  | Option.none => Option.none
  | some (key, r2) =>
  match parseFieldAfter ",\"summary\":".data r2 with
  | Option.none => Option.none
  | some (summary, r3) =>
  match parseFieldAfter ",\"description\":".data r3 with
  | Option.none => Option.none
  | some (description, r4) =>
  match parseFieldAfter ",\"status\":".data r4 with
  | Option.none => Option.none
  | some (status, r5) =>
  match parseFieldAfter ",\"priority\":".data r5 with
  | Option.none => Option.none
  | some (priority, r6) =>
  match parseFieldAfter ",\"created\":".data r6 with
  | Option.none => Option.none
  | some (created, r7) =>
  match parseFieldAfter ",\"assignee\":".data r7 with
  | Option.none => Option.none
  | some (assignee, r8) =>
  match parseFieldAfter ",\"project\":".data r8 with
  | Option.none => Option.none
  | some (project, r9) =>
  match expectLit "\x7d".data r9 with
  | some [] => some ⟨id, key, summary, description, status, priority, created, assignee, project⟩
  | _ => Option.none

/-- A character whose JSON escape is one of the simple two-character
escapes or the character itself (every character except the control
characters that need a `\u00XX` escape). -/
def tameChar (c : Char) : Bool :=
  32 ≤ c.toNat || c = '\n' || c = '\t' || c = '\r' || c = '\x08' || c = '\x0c'

/-- A string all of whose characters are tame. -/
def tameStr (s : String) : Bool := s.data.all tameChar

/-- Tameness of an optional field value. -/
def tameOpt : Option String → Bool
  | Option.none => true
  | some s => tameStr s

/-- A record whose fields avoid the exotic control characters (everything
the pipeline itself produces is of this shape). -/
def tameIssue (it : JiraIssue) : Bool :=
  tameOpt it.id && tameOpt it.key && tameOpt it.summary && tameOpt it.description &&
  tameOpt it.status && tameOpt it.priority && tameOpt it.created &&
  tameOpt it.assignee && tameOpt it.project

/-! ### The fetch orchestrator (`fetch_jira_tokens`, lines 143-162) -/

/-- The external world the orchestrator runs against: whether the module's
Jira client was set up, what `jira_client.jql(...)` returns or raises, and
whether opening the persistence target raises (and with what message). -/
structure Env where
  clientReady : Bool
  jqlResponse : Except String PyVal
  fileFault : Option String

/-- The request model `JiraFetchRequest` (lines 18-22). -/
structure JiraFetchRequest where
  jql_query : String
  limit : Nat
  save_to_file : Bool
  filename : String

/-- The response model `JiraFetchResponse` (lines 35-38). -/
structure JiraFetchResponse where
  count : Nat
  issues : List JiraIssue
  success : Bool
deriving DecidableEq, Repr

/-- What the endpoint does: return a response, or raise
`HTTPException(status_code, detail)`. -/
inductive FetchOutcome where
  | ok (resp : JiraFetchResponse)
  | httpError (status : Nat) (detail : String)
deriving DecidableEq, Repr

/-- Model of `fetch_jira_issues` (lines 135-140): guard on the client,
call the external query interface, and take `results.get("issues", [])`. -/
def fetch_jira_issues (env : Env) : Except String PyVal :=
  if env.clientReady then do
    let results ← env.jqlResponse
    pyGet results "issues" (PyVal.list [])
  else Except.error "Jira client not initialized"

/-- Model of `fetch_jira_tokens` (lines 143-162): query, normalize,
optionally persist, and wrap the lot in `try/except` converting any fault
into `HTTPException(500, str(e))`.  The filesystem is returned alongside
the outcome; on a fault it is the input filesystem (the only modelled
write is the one guarded by `fileFault`). -/
def fetch_jira_tokens (env : Env) (request : JiraFetchRequest) (files : Files) :
    FetchOutcome × Files :=
  match (do
      let raw ← fetch_jira_issues env
      let normalized ← normalize_issues raw
      let files2 ←
        if request.save_to_file then
          save_to_jsonl env.fileFault normalized request.filename files
        else Except.ok files
      Except.ok (normalized, files2) : Except String (List JiraIssue × Files)) with
  | Except.ok (normalized, files2) =>
      (FetchOutcome.ok ⟨normalized.length, normalized, true⟩, files2)
  | Except.error e => (FetchOutcome.httpError 500 e, files)

/-! ## Helper lemmas -/

/-- Inversion of a successful `Except` bind. -/
theorem exceptBindOk {α β : Type} {x : Except String α} {f : α → Except String β} {b : β}
    (h : x >>= f = Except.ok b) : ∃ a, x = Except.ok a ∧ f a = Except.ok b := by
  cases x with
  | ok a => exact ⟨a, rfl, h⟩
  | error e => exact absurd h (by simp [Bind.bind, Except.bind])

/-- A successful bind from a known `ok`. -/
theorem exceptBindOkOf {α β : Type} {x : Except String α} {f : α → Except String β} {a : α}
    (h : x = Except.ok a) : x >>= f = f a := by
  subst h; rfl

/-! ## Claim C7: the concrete normalization scenario -/

/-- Claim C7: the RawIssue
`{id:"1", key:"PRJ-1", fields:{summary:"Bug",
description:"<p>Crash on <b>login</b> for bob@example.com</p>",
status:{name:"Open"}, priority:{name:"High"}, created:"2024-01-01",
assignee:{displayName:"Bob"}, project:{name:"Core"}}}` normalizes to
exactly `{id:"1", key:"PRJ-1", summary:"Bug",
description:"Crash on login for [REDACTED]", status:"Open",
priority:"High", created:"2024-01-01", assignee:"Bob", project:"Core"}`:
markup is stripped with a separating space, whitespace collapsed, the
email redacted, and every fixed path extracted. -/
theorem c7_concrete_scenario :
    normalize_issues (PyVal.list [PyVal.dict [("id", PyVal.str "1"), ("key", PyVal.str "PRJ-1"),
      ("fields", PyVal.dict [("summary", PyVal.str "Bug"),
        ("description", PyVal.str "<p>Crash on <b>login</b> for bob@example.com</p>"),
        ("status", PyVal.dict [("name", PyVal.str "Open")]),
        ("priority", PyVal.dict [("name", PyVal.str "High")]),
        ("created", PyVal.str "2024-01-01"),
        ("assignee", PyVal.dict [("displayName", PyVal.str "Bob")]),
        ("project", PyVal.dict [("name", PyVal.str "Core")])])]]) =
    Except.ok [{ id := some "1", key := some "PRJ-1", summary := some "Bug",
                 description := some "Crash on login for [REDACTED]",
                 status := some "Open", priority := some "High",
                 created := some "2024-01-01", assignee := some "Bob",
                 project := some "Core" }] := by
  rfl

/-! ## Claim C2: totality of the sanitizer (corrected) -/

/-- Counterexample to claim C2 as stated: `clean_text` does not return a
string for every input value.  On the truthy non-string non-mapping value
`5`, BeautifulSoup raises (caught on line 94) and then the fallback
`re.sub(r"<[^<]+?>", "", 5)` on line 95 raises an uncaught `TypeError`,
so the sanitizer faults instead of returning a string. -/
theorem c2_counterexample_int_input :
    clean_text (PyVal.int 5) = Except.error "TypeError: expected string or bytes-like object" := by
  rfl

/-- Claim C2 (amended): for every input in the sanitizer's contract
domain — absent/falsy values, strings (including malformed markup
fragments), and mappings — `clean_text` returns a string and never
raises, and for absent input it returns the empty string.  (Truthy values
of any other shape make it raise.) -/
theorem c2_sanitizer_total_on_contract :
    clean_text PyVal.none = Except.ok "" ∧
    ∀ t : PyVal, (pyTruthy t = false ∨ (∃ s, t = PyVal.str s) ∨ (∃ es, t = PyVal.dict es)) →
      ∃ out, clean_text t = Except.ok out := by
  refine ⟨rfl, ?_⟩
  intro t h
  rcases h with h | ⟨s, rfl⟩ | ⟨es, rfl⟩
  · exact ⟨"", by simp [clean_text, h]⟩
  · by_cases h' : pyTruthy (PyVal.str s) = false
    · exact ⟨"", by simp [clean_text, h']⟩
    · exact ⟨sanitizeStr s, by simp [clean_text, h']⟩
  · by_cases h' : pyTruthy (PyVal.dict es) = false
    · exact ⟨"", by simp [clean_text, h']⟩
    · exact ⟨json_dumps (PyVal.dict es), by simp [clean_text, h']⟩

/-- Witness for the amended C2: the malformed markup fragment
`"<div><span>text"` is sanitized without a fault. -/
theorem c2_sanitizer_total_on_contract_witness :
    ∃ out, clean_text (PyVal.str "<div><span>text") = Except.ok out :=
  c2_sanitizer_total_on_contract.2 (PyVal.str "<div><span>text")
    (Or.inr (Or.inl ⟨"<div><span>text", rfl⟩))

/-! ## Claim C5: mapping inputs (corrected) -/

/-- Counterexample to claim C5 as stated: the empty mapping is a dict,
but `clean_text` returns `""` for it (the falsy check on line 85 fires
before the dict check on line 88), which is not the mapping's JSON
serialization `"{}"` — not a serialization of the mapping at all. -/
theorem c5_counterexample_empty_dict :
    clean_text (PyVal.dict []) = Except.ok "" ∧
    json_dumps (PyVal.dict []) = "\x7b\x7d" ∧ ("" : String) ≠ "\x7b\x7d" :=
  ⟨rfl, rfl, by decide⟩

/-- Claim C5 (amended): for every nonempty mapping input, `clean_text`
returns the mapping's deterministic JSON serialization (`json.dumps`);
the empty mapping instead hits the falsy early-return and yields `""`. -/
theorem c5_nonempty_dict_serialized :
    ∀ es : List (String × PyVal), es ≠ [] →
      clean_text (PyVal.dict es) = Except.ok (json_dumps (PyVal.dict es)) := by
  intro es h
  cases es with
  | nil => exact absurd rfl h
  | cons a as => rfl

/-- Witness for the amended C5 at a concrete nonempty mapping. -/
theorem c5_nonempty_dict_serialized_witness :
    clean_text (PyVal.dict [("a", PyVal.int 1)]) =
      Except.ok (json_dumps (PyVal.dict [("a", PyVal.int 1)])) :=
  c5_nonempty_dict_serialized [("a", PyVal.int 1)] (List.cons_ne_nil _ _)

/-! ## Normalization on well-formed raw issues -/

/-- Bind of a syntactic `ok` reduces. -/
theorem ok_bind {α β : Type} (a : α) (f : α → Except String β) :
    (Except.ok a : Except String α) >>= f = f a := rfl

/-- `.get` on a dict never raises. -/
theorem pyGet_dict (es : List (String × PyVal)) (k : String) (d : PyVal) :
    pyGet (PyVal.dict es) k d = Except.ok ((dictLookup es k).getD d) := rfl

/-- A valid leaf lookup passes pydantic validation with `optStrOf` as the
resulting field value. -/
theorem asOptStr_getD {o : Option PyVal} (h : validLeaf o = true) :
    asOptStr (o.getD PyVal.none) = Except.ok (optStrOf o) := by
  cases o with
  | none => rfl
  | some v => cases v <;> simp_all [validLeaf, isOptStrVal, asOptStr, optStrOf]

/-- A cleanable description lookup stays cleanable after the `None`
default. -/
theorem cleanable_getD {o : Option PyVal}
    (h : (match o with | Option.none => true | some v => cleanableVal v) = true) :
    cleanableVal (o.getD PyVal.none) = true := by
  cases o with
  | none => rfl
  | some v => exact h

/-- On cleanable values `clean_text` succeeds and returns `cleanStr`. -/
theorem clean_text_ok {v : PyVal} (h : cleanableVal v = true) :
    clean_text v = Except.ok (cleanStr v) := by
  by_cases ht : pyTruthy v = false
  · simp [clean_text, cleanStr, ht]
  · cases v <;> simp_all [cleanableVal, clean_text, cleanStr]

/-- The `fields` key of a well-formed issue dict is absent or a dict. -/
theorem fields_shape {ie : List (String × PyVal)}
    (h : isRawIssueOk (PyVal.dict ie) = true) :
    dictLookup ie "fields" = Option.none ∨
      ∃ fe, dictLookup ie "fields" = some (PyVal.dict fe) := by
  simp only [isRawIssueOk, Bool.and_eq_true] at h
  obtain ⟨-, hfld⟩ := h
  revert hfld
  cases hl : dictLookup ie "fields" with
  | none => exact fun _ => Or.inl rfl
  | some v =>
    cases v <;> intro hfld <;> simp_all

/-- On a well-formed issue dict, `fields` resolves to the dict `feOf`. -/
theorem getFields_of_wf {ie : List (String × PyVal)}
    (h : isRawIssueOk (PyVal.dict ie) = true) :
    getFields (PyVal.dict ie) = Except.ok (PyVal.dict (feOf ie)) := by
  rcases fields_shape h with hl | ⟨fe, hl⟩ <;> simp [getFields, pyGet, feOf, hl]

/-- The `fields` dict of a well-formed issue is itself well-formed. -/
theorem isFieldsOk_feOf {ie : List (String × PyVal)}
    (h : isRawIssueOk (PyVal.dict ie) = true) :
    isFieldsOk (feOf ie) = true := by
  rcases fields_shape h with hl | ⟨fe, hl⟩
  · simp only [feOf, hl]
    decide
  · simp only [isRawIssueOk, Bool.and_eq_true] at h
    obtain ⟨-, hfld⟩ := h
    rw [hl] at hfld
    simpa [feOf, hl] using hfld

/-- Under `isNameOk`, the `status`/`priority` extraction succeeds. -/
theorem getName_eq {fe : List (String × PyVal)} {k : String}
    (h : isNameOk fe k = true) :
    getName (PyVal.dict fe) k = Except.ok (nameRaw fe k) := by
  unfold getName nameRaw
  cases hk : dictLookup fe k with
  | none => simp [pyGet_dict, ok_bind, hk, pyGet, dictLookup]
  | some v =>
    cases v <;> simp_all [isNameOk, pyGet_dict, ok_bind, hk, pyGet]

/-- Under `isNameOk`, the extracted name validates to `nameOpt`. -/
theorem asOptStr_nameRaw {fe : List (String × PyVal)} {k : String}
    (h : isNameOk fe k = true) :
    asOptStr (nameRaw fe k) = Except.ok (nameOpt fe k) := by
  unfold nameRaw nameOpt
  cases hk : dictLookup fe k with
  | none => rfl
  | some v =>
    cases v <;> simp_all [isNameOk, hk]
    exact asOptStr_getD h

/-- Under `isGuardOk`, the guarded `assignee`/`project` extraction
succeeds. -/
theorem getGuarded_eq {fe : List (String × PyVal)} {k attr : String}
    (h : isGuardOk fe k attr = true) :
    getGuarded (PyVal.dict fe) k attr = Except.ok (guardRaw fe k attr) := by
  unfold getGuarded guardRaw
  cases hk : dictLookup fe k with
  | none => simp [pyGet_dict, ok_bind, hk, pyTruthy]
  | some v =>
    by_cases ht : pyTruthy v = true
    · cases v <;> simp_all [isGuardOk, pyGet_dict, ok_bind, hk, pyGet]
    · simp_all [pyGet_dict, ok_bind, hk]

/-- Under `isGuardOk`, the guarded value validates to `guardOpt`. -/
theorem asOptStr_guardRaw {fe : List (String × PyVal)} {k attr : String}
    (h : isGuardOk fe k attr = true) :
    asOptStr (guardRaw fe k attr) = Except.ok (guardOpt fe k attr) := by
  unfold guardRaw guardOpt
  cases hk : dictLookup fe k with
  | none => rfl
  | some v =>
    by_cases ht : pyTruthy v = true
    · cases v <;> simp_all [isGuardOk, hk]
      exact asOptStr_getD h
    · simp_all [asOptStr]

/-- Key lemma: on a well-formed raw issue the loop body of
`normalize_issues` cannot raise and produces exactly the record described
by the total function `specNormalize`. -/
theorem normalizeIssue_ok_of_wf {ie : List (String × PyVal)}
    (h : isRawIssueOk (PyVal.dict ie) = true) :
    normalizeIssue (PyVal.dict ie) = Except.ok (specNormalize ie) := by
  have hfo := isFieldsOk_feOf h
  have hw := h
  simp only [isRawIssueOk, Bool.and_eq_true] at hw
  obtain ⟨⟨hid, hkey⟩, -⟩ := hw
  simp only [isFieldsOk, Bool.and_eq_true] at hfo
  obtain ⟨⟨⟨⟨⟨⟨hsum, hcre⟩, hdesc⟩, hst⟩, hpr⟩, hass⟩, hproj⟩ := hfo
  have h1 := getFields_of_wf h
  have hcln := clean_text_ok (cleanable_getD hdesc)
  have hns := getName_eq hst
  have hnp := getName_eq hpr
  have hga := getGuarded_eq hass
  have hgp := getGuarded_eq hproj
  have hid' := asOptStr_getD hid
  have hkey' := asOptStr_getD hkey
  have hsum' := asOptStr_getD hsum
  have hcre' := asOptStr_getD hcre
  have hst' := asOptStr_nameRaw hst
  have hpr' := asOptStr_nameRaw hpr
  have hass' := asOptStr_guardRaw hass
  have hproj' := asOptStr_guardRaw hproj
  simp only [normalizeIssue, h1, pyGet_dict, ok_bind, hcln, hns, hnp, hga, hgp,
    hid', hkey', hsum', hcre', hst', hpr', hass', hproj']
  rfl

/-- Lift of the key lemma to arbitrary well-formed values. -/
theorem normalizeIssue_ok_of_wf_v {x : PyVal} (h : isRawIssueOk x = true) :
    normalizeIssue x = Except.ok (specNormalizeV x) := by
  cases x with
  | dict ie => exact normalizeIssue_ok_of_wf h
  | none => simp [isRawIssueOk] at h
  | bool b => simp [isRawIssueOk] at h
  | int n => simp [isRawIssueOk] at h
  | str s => simp [isRawIssueOk] at h
  | list xs => simp [isRawIssueOk] at h

/-- The normalization loop maps `specNormalizeV` over a list of
well-formed raw issues. -/
theorem normList_ok {l : List PyVal} (h : ∀ x ∈ l, isRawIssueOk x = true) :
    normList l = Except.ok (l.map specNormalizeV) := by
  induction l with
  | nil => rfl
  | cons x xs ih =>
    have hx := normalizeIssue_ok_of_wf_v (h x (List.mem_cons_self x xs))
    have hxs := ih (fun y hy => h y (List.mem_cons_of_mem x hy))
    simp [normList, hx, hxs, ok_bind]

/-! ## Claim C3: length and order preservation -/

/-- Claim C3: for every sequence of (well-formed) RawIssue records of
length `n`, the normalizer produces a sequence of exactly `n` records,
one-to-one and order-preserving: the output at index `i` is exactly the
normalization of the input at index `i`. -/
theorem c3_normalizer_length_order :
    ∀ l : List PyVal, (∀ x ∈ l, isRawIssueOk x = true) →
      ∃ out, normalize_issues (PyVal.list l) = Except.ok out ∧
        out.length = l.length ∧
        ∀ i : Nat, out[i]? = (l[i]?).bind fun y => (normalizeIssue y).toOption := by
  intro l h
  refine ⟨l.map specNormalizeV, ?_, by simp, ?_⟩
  · simp [normalize_issues, pyIter, ok_bind, normList_ok h]
  · intro i
    rw [List.getElem?_map]
    cases hi : l[i]? with
    | none => rfl
    | some x =>
      have hx : x ∈ l := List.getElem?_mem hi
      simp [normalizeIssue_ok_of_wf_v (h x hx), Except.toOption]

/-- Witness for C3 on a concrete two-element sequence. -/
theorem c3_normalizer_length_order_witness :
    ∃ out, normalize_issues (PyVal.list [PyVal.dict [("id", PyVal.str "1")], PyVal.dict []]) =
        Except.ok out ∧
      out.length = ([PyVal.dict [("id", PyVal.str "1")], PyVal.dict []] : List PyVal).length ∧
      ∀ i : Nat, out[i]? =
        (([PyVal.dict [("id", PyVal.str "1")], PyVal.dict []] : List PyVal)[i]?).bind
          fun y => (normalizeIssue y).toOption :=
  c3_normalizer_length_order [PyVal.dict [("id", PyVal.str "1")], PyVal.dict []]
    (by decide)

/-! ## Claim C4: missing intermediate parents yield absence, not errors -/

/-- Claim C4: for every well-formed RawIssue, normalization succeeds even
when intermediate parent objects are missing, and a missing parent —
`fields` itself, or `fields.status` / `fields.priority` /
`fields.assignee` / `fields.project` — makes the corresponding flat field
the absence marker; `status` and `priority` are read from the nested
`.name` only when the parent object is present. -/
theorem c4_missing_parents_yield_absence :
    ∀ ie, isRawIssueOk (PyVal.dict ie) = true →
      ∃ out, normalizeIssue (PyVal.dict ie) = Except.ok out ∧
        (dictLookup ie "fields" = Option.none →
           out.summary = Option.none ∧ out.status = Option.none ∧
           out.priority = Option.none ∧ out.created = Option.none ∧
           out.assignee = Option.none ∧ out.project = Option.none ∧
           out.description = some "") ∧
        (∀ fe, dictLookup ie "fields" = some (PyVal.dict fe) →
           (dictLookup fe "status" = Option.none → out.status = Option.none) ∧
           (dictLookup fe "priority" = Option.none → out.priority = Option.none) ∧
           (dictLookup fe "assignee" = Option.none → out.assignee = Option.none) ∧
           (dictLookup fe "project" = Option.none → out.project = Option.none) ∧
           (∀ d, dictLookup fe "status" = some (PyVal.dict d) →
              out.status = optStrOf (dictLookup d "name")) ∧
           (∀ d, dictLookup fe "priority" = some (PyVal.dict d) →
              out.priority = optStrOf (dictLookup d "name"))) := by
  intro ie h
  refine ⟨specNormalize ie, normalizeIssue_ok_of_wf h, ?_, ?_⟩
  · intro hf
    have hfe : feOf ie = [] := by simp [feOf, hf]
    simp [specNormalize, hfe, nameOpt, guardOpt, optStrOf, dictLookup, cleanStr, pyTruthy]
  · intro fe hf
    have hfe : feOf ie = fe := by simp [feOf, hf]
    subst hfe
    refine ⟨?_, ?_, ?_, ?_, ?_, ?_⟩
    · intro hs; simp [specNormalize, nameOpt, hs]
    · intro hs; simp [specNormalize, nameOpt, hs]
    · intro hs; simp [specNormalize, guardOpt, hs]
    · intro hs; simp [specNormalize, guardOpt, hs]
    · intro d hs; simp [specNormalize, nameOpt, hs]
    · intro d hs; simp [specNormalize, nameOpt, hs]

/-- Witness for C4: a raw issue whose `fields` lacks every parent
object. -/
theorem c4_missing_parents_yield_absence_witness :
    ∃ out, normalizeIssue (PyVal.dict [("id", PyVal.str "7"),
        ("fields", PyVal.dict [("summary", PyVal.str "S")])]) = Except.ok out ∧
      (dictLookup [("id", PyVal.str "7"),
          ("fields", PyVal.dict [("summary", PyVal.str "S")])] "fields" = Option.none →
         out.summary = Option.none ∧ out.status = Option.none ∧
         out.priority = Option.none ∧ out.created = Option.none ∧
         out.assignee = Option.none ∧ out.project = Option.none ∧
         out.description = some "") ∧
      (∀ fe, dictLookup [("id", PyVal.str "7"),
          ("fields", PyVal.dict [("summary", PyVal.str "S")])] "fields" =
            some (PyVal.dict fe) →
         (dictLookup fe "status" = Option.none → out.status = Option.none) ∧
         (dictLookup fe "priority" = Option.none → out.priority = Option.none) ∧
         (dictLookup fe "assignee" = Option.none → out.assignee = Option.none) ∧
         (dictLookup fe "project" = Option.none → out.project = Option.none) ∧
         (∀ d, dictLookup fe "status" = some (PyVal.dict d) →
            out.status = optStrOf (dictLookup d "name")) ∧
         (∀ d, dictLookup fe "priority" = some (PyVal.dict d) →
            out.priority = optStrOf (dictLookup d "name"))) :=
  c4_missing_parents_yield_absence
    [("id", PyVal.str "7"), ("fields", PyVal.dict [("summary", PyVal.str "S")])]
    (by decide)

/-! ## Claim C10: the description field is always a string -/

/-- Claim C10: every record `normalizeIssue` produces carries a plain
string in `description` — never the absence marker; an absent
`fields.description` normalizes to `some ""`, and (contrast, on the empty
raw issue) every other optional field is the absence marker while
`description` is `some ""`. -/
theorem c10_description_always_string :
    (∀ issue out, normalizeIssue issue = Except.ok out → ∃ s, out.description = some s) ∧
    (∀ issue out, normalizeIssue issue = Except.ok out →
       (do
         let f ← getFields issue
         pyGet f "description" PyVal.none : Except String PyVal) = Except.ok PyVal.none →
       out.description = some "") ∧
    normalizeIssue (PyVal.dict []) =
      Except.ok ⟨Option.none, Option.none, Option.none, some "", Option.none,
                 Option.none, Option.none, Option.none, Option.none⟩ := by
  refine ⟨?_, ?_, rfl⟩
  · intro issue out h
    unfold normalizeIssue at h
    obtain ⟨fields, -, h⟩ := exceptBindOk h
    obtain ⟨idv, -, h⟩ := exceptBindOk h
    obtain ⟨keyv, -, h⟩ := exceptBindOk h
    obtain ⟨sumv, -, h⟩ := exceptBindOk h
    obtain ⟨descv, -, h⟩ := exceptBindOk h
    obtain ⟨desc, -, h⟩ := exceptBindOk h
    obtain ⟨stv, -, h⟩ := exceptBindOk h
    obtain ⟨prv, -, h⟩ := exceptBindOk h
    obtain ⟨crv, -, h⟩ := exceptBindOk h
    obtain ⟨asv, -, h⟩ := exceptBindOk h
    obtain ⟨pjv, -, h⟩ := exceptBindOk h
    obtain ⟨id, -, h⟩ := exceptBindOk h
    obtain ⟨key, -, h⟩ := exceptBindOk h
    obtain ⟨summary, -, h⟩ := exceptBindOk h
    obtain ⟨status, -, h⟩ := exceptBindOk h
    obtain ⟨priority, -, h⟩ := exceptBindOk h
    obtain ⟨created, -, h⟩ := exceptBindOk h
    obtain ⟨assignee, -, h⟩ := exceptBindOk h
    obtain ⟨project, -, h⟩ := exceptBindOk h
    cases h
    exact ⟨desc, rfl⟩
  · intro issue out h hd
    unfold normalizeIssue at h
    obtain ⟨fields, hfields, h⟩ := exceptBindOk h
    obtain ⟨idv, -, h⟩ := exceptBindOk h
    obtain ⟨keyv, -, h⟩ := exceptBindOk h
    obtain ⟨sumv, -, h⟩ := exceptBindOk h
    obtain ⟨descv, hdescv, h⟩ := exceptBindOk h
    obtain ⟨desc, hdesc, h⟩ := exceptBindOk h
    obtain ⟨stv, -, h⟩ := exceptBindOk h
    obtain ⟨prv, -, h⟩ := exceptBindOk h
    obtain ⟨crv, -, h⟩ := exceptBindOk h
    obtain ⟨asv, -, h⟩ := exceptBindOk h
    obtain ⟨pjv, -, h⟩ := exceptBindOk h
    obtain ⟨id, -, h⟩ := exceptBindOk h
    obtain ⟨key, -, h⟩ := exceptBindOk h
    obtain ⟨summary, -, h⟩ := exceptBindOk h
    obtain ⟨status, -, h⟩ := exceptBindOk h
    obtain ⟨priority, -, h⟩ := exceptBindOk h
    obtain ⟨created, -, h⟩ := exceptBindOk h
    obtain ⟨assignee, -, h⟩ := exceptBindOk h
    obtain ⟨project, -, h⟩ := exceptBindOk h
    obtain ⟨f2, hf2, hd2⟩ := exceptBindOk hd
    rw [hfields] at hf2
    cases hf2
    rw [hdescv] at hd2
    cases hd2
    rw [show clean_text PyVal.none = Except.ok "" from rfl] at hdesc
    cases hdesc
    cases h
    rfl

/-- Witness for C10 at the empty raw issue. -/
theorem c10_description_always_string_witness :
    (∃ s, ({ id := Option.none, key := Option.none, summary := Option.none,
             description := some "", status := Option.none, priority := Option.none,
             created := Option.none, assignee := Option.none,
             project := Option.none} : JiraIssue).description = some s) ∧
    ({ id := Option.none, key := Option.none, summary := Option.none,
       description := some "", status := Option.none, priority := Option.none,
       created := Option.none, assignee := Option.none,
       project := Option.none} : JiraIssue).description = some "" :=
  ⟨c10_description_always_string.1 (PyVal.dict []) _ rfl,
   c10_description_always_string.2.1 (PyVal.dict []) _ rfl rfl⟩

/-! ## Claim C1: orchestrator failure semantics -/

/-- Bind of a syntactic `error` short-circuits. -/
theorem error_bind {α β : Type} (e : String) (f : α → Except String β) :
    (Except.error e : Except String α) >>= f = Except.error e := rfl

/-- Claim C1: whenever the external query interface, normalization, or
persistence raises, `fetch_jira_tokens` catches the fault at its boundary
and reports a single generic failure (`HTTPException(500, str(e))`)
carrying the underlying fault's description; no `FetchResult` is
returned, and the filesystem is left untouched — in particular, when the
external query raises no file is written even when `save_to_file` is
true (each conclusion returns the input `files` unchanged, for every
request). -/
theorem c1_failure_all_or_nothing :
    (∀ (env : Env) (req : JiraFetchRequest) (files : Files) (e : String),
       env.clientReady = true → env.jqlResponse = Except.error e →
       fetch_jira_tokens env req files = (FetchOutcome.httpError 500 e, files)) ∧
    (∀ (env : Env) (req : JiraFetchRequest) (files : Files) (raw : PyVal) (e : String),
       fetch_jira_issues env = Except.ok raw →
       normalize_issues raw = Except.error e →
       fetch_jira_tokens env req files = (FetchOutcome.httpError 500 e, files)) ∧
    (∀ (env : Env) (req : JiraFetchRequest) (files : Files) (raw : PyVal)
       (norm : List JiraIssue) (m : String),
       fetch_jira_issues env = Except.ok raw →
       normalize_issues raw = Except.ok norm →
       req.save_to_file = true → env.fileFault = some m →
       fetch_jira_tokens env req files = (FetchOutcome.httpError 500 m, files)) := by
  refine ⟨?_, ?_, ?_⟩
  · intro env req files e hr he
    have hf : fetch_jira_issues env = Except.error e := by
      simp [fetch_jira_issues, hr, he, error_bind]
    simp [fetch_jira_tokens, hf, error_bind]
  · intro env req files raw e hq hn
    simp [fetch_jira_tokens, hq, ok_bind, hn, error_bind]
  · intro env req files raw norm m hq hn hs hff
    simp [fetch_jira_tokens, hq, ok_bind, hn, hs, save_to_jsonl, hff, error_bind]

/-- Witness for C1: a query fault, a normalization fault, and a
persistence fault, each at a concrete environment, each with
`save_to_file = true` and an unchanged (empty) filesystem. -/
theorem c1_failure_all_or_nothing_witness :
    fetch_jira_tokens ⟨true, Except.error "boom", Option.none⟩ ⟨"q", 50, true, "f.jsonl"⟩ [] =
      (FetchOutcome.httpError 500 "boom", []) ∧
    fetch_jira_tokens ⟨true, Except.ok (PyVal.dict [("issues", PyVal.list [PyVal.int 3])]),
        Option.none⟩ ⟨"q", 50, true, "f.jsonl"⟩ [] =
      (FetchOutcome.httpError 500 "AttributeError: object has no attribute get", []) ∧
    fetch_jira_tokens ⟨true, Except.ok (PyVal.dict []), some "disk full"⟩
        ⟨"q", 50, true, "f.jsonl"⟩ [] =
      (FetchOutcome.httpError 500 "disk full", []) :=
  ⟨c1_failure_all_or_nothing.1 ⟨true, Except.error "boom", Option.none⟩
      ⟨"q", 50, true, "f.jsonl"⟩ [] "boom" rfl rfl,
   c1_failure_all_or_nothing.2.1 ⟨true, Except.ok (PyVal.dict [("issues",
        PyVal.list [PyVal.int 3])]), Option.none⟩ ⟨"q", 50, true, "f.jsonl"⟩ []
      (PyVal.list [PyVal.int 3]) "AttributeError: object has no attribute get" rfl rfl,
   c1_failure_all_or_nothing.2.2 ⟨true, Except.ok (PyVal.dict []), some "disk full"⟩
      ⟨"q", 50, true, "f.jsonl"⟩ [] (PyVal.list []) [] "disk full" rfl rfl rfl rfl⟩

/-! ## Claim C9: the success path -/

/-- Claim C9: when the external query, normalization and (if requested)
persistence all succeed, the orchestrator returns a `FetchResult` with
`success = true`, `issues` equal to the normalized sequence in the order
the external query returned (no resorting), and `count` equal to the
length of `issues`. -/
theorem c9_success_result :
    ∀ (env : Env) (req : JiraFetchRequest) (files : Files) (results issuesVal : PyVal)
      (norm : List JiraIssue),
      env.clientReady = true →
      env.jqlResponse = Except.ok results →
      pyGet results "issues" (PyVal.list []) = Except.ok issuesVal →
      normalize_issues issuesVal = Except.ok norm →
      (req.save_to_file = true → env.fileFault = Option.none) →
      ∃ files2, fetch_jira_tokens env req files =
        (FetchOutcome.ok ⟨norm.length, norm, true⟩, files2) := by
  intro env req files results issuesVal norm hr hj hg hn hsave
  have hfi : fetch_jira_issues env = Except.ok issuesVal := by
    simp [fetch_jira_issues, hr, hj, ok_bind, hg]
  cases hs : req.save_to_file with
  | false =>
    exact ⟨files, by simp [fetch_jira_tokens, hfi, ok_bind, hn, hs]⟩
  | true =>
    exact ⟨(req.filename, jsonlContent norm) :: files,
      by simp [fetch_jira_tokens, hfi, ok_bind, hn, hs, save_to_jsonl, hsave hs]⟩

/-- Witness for C9 at a concrete environment returning one raw issue,
with persistence requested. -/
theorem c9_success_result_witness :
    ∃ files2, fetch_jira_tokens
        ⟨true, Except.ok (PyVal.dict [("issues", PyVal.list [PyVal.dict []])]), Option.none⟩
        ⟨"q", 50, true, "f.jsonl"⟩ [] =
      (FetchOutcome.ok ⟨1, [⟨Option.none, Option.none, Option.none, some "", Option.none,
          Option.none, Option.none, Option.none, Option.none⟩], true⟩, files2) :=
  c9_success_result
    ⟨true, Except.ok (PyVal.dict [("issues", PyVal.list [PyVal.dict []])]), Option.none⟩
    ⟨"q", 50, true, "f.jsonl"⟩ []
    (PyVal.dict [("issues", PyVal.list [PyVal.dict []])])
    (PyVal.list [PyVal.dict []])
    [⟨Option.none, Option.none, Option.none, some "", Option.none,
      Option.none, Option.none, Option.none, Option.none⟩]
    rfl rfl rfl rfl (fun _ => rfl)

/-! ## Claim C8: email redaction -/

/-- The redaction fuel is irrelevant once it covers the input length. -/
theorem redactAux_fuel :
    ∀ (fuel fuel' : Nat) (cs : List Char), cs.length ≤ fuel → cs.length ≤ fuel' →
      redactAux fuel cs = redactAux fuel' cs := by
  intro fuel
  induction fuel with
  | zero =>
    intro fuel' cs h h'
    have hnil : cs = [] := List.eq_nil_of_length_eq_zero (Nat.le_zero.mp h)
    subst hnil
    cases fuel' <;> rfl
  | succ fuel ih =>
    intro fuel' cs h h'
    cases cs with
    | nil => cases fuel' <;> rfl
    | cons c rest =>
      cases fuel' with
      | zero => simp at h'
      | succ fuel' =>
        simp only [List.length_cons] at h h'
        cases hm : matchEmail (c :: rest) with
        | some n =>
          simp only [redactAux, hm]
          rw [ih fuel' (rest.drop (n - 1)) (by simp only [List.length_drop]; omega)
            (by simp only [List.length_drop]; omega)]
        | none =>
          simp only [redactAux, hm]
          rw [ih fuel' rest (by omega) (by omega)]

/-- Unfolding of `redactEmails` at a matched position. -/
theorem redactEmails_cons_match {c : Char} {rest : List Char} {n : Nat}
    (hm : matchEmail (c :: rest) = some n) :
    redactEmails (c :: rest) = "[REDACTED]".data ++ redactEmails (rest.drop (n - 1)) := by
  simp only [redactEmails, List.length_cons, redactAux, hm]
  rw [redactAux_fuel rest.length (rest.drop (n - 1)).length (rest.drop (n - 1))
    (by simp only [List.length_drop]; omega) (Nat.le_refl _)]

/-- Unfolding of `redactEmails` at an unmatched position. -/
theorem redactEmails_cons_none {c : Char} {rest : List Char}
    (hm : matchEmail (c :: rest) = Option.none) :
    redactEmails (c :: rest) = c :: redactEmails rest := by
  simp only [redactEmails, List.length_cons, redactAux, hm]

/-- No email match can start at a non-`[\w\.-]` character. -/
theorem matchEmail_none_of_notLocal {c : Char} {cs : List Char}
    (h : isLocalChar c = false) : matchEmail (c :: cs) = Option.none := by
  simp [matchEmail, List.takeWhile_cons, h]

/-- No email match can start where the input has no `@` at all. -/
theorem matchEmail_none_of_no_at {cs : List Char} (h : '@' ∉ cs) :
    matchEmail cs = Option.none := by
  unfold matchEmail
  by_cases hl : (cs.takeWhile isLocalChar).isEmpty = true
  · simp [hl]
  · rw [if_neg hl]
    cases hd : cs.dropWhile isLocalChar with
    | nil => rfl
    | cons c' rest =>
      have hc' : c' ∈ cs := by
        have hsublist : List.Sublist (cs.dropWhile isLocalChar) cs :=
          List.dropWhile_sublist isLocalChar
        have hsub := hsublist.subset
        exact hsub (hd ▸ List.mem_cons_self c' rest)
      have hne : c' ≠ '@' := fun he => h (he ▸ hc')
      split
      · rename_i r heq
        injection heq with h1 h2
        exact absurd h1 hne
      · rfl

/-- Word characters are `[\w\.-]` characters. -/
theorem isLocalChar_of_word {c : Char} (h : isWordChar c = true) :
    isLocalChar c = true := by
  simp [isLocalChar, h]

/-- A word character is not the dot. -/
theorem word_ne_dot {c : Char} (h : isWordChar c = true) : c ≠ '.' := by
  intro he
  subst he
  exact absurd h (by decide)

/-- `\.\w+` fails unless the head is a dot. -/
theorem matchDotW_none_of_ne {c : Char} {l : List Char} (h : c ≠ '.') :
    matchDotW (c :: l) = Option.none := by
  unfold matchDotW
  split
  · rename_i r heq
    injection heq with h1 h2
    exact absurd h1 h
  · rfl

/-- `[\w\.-]+\.\w+` fails on a dot-free word run followed by inert
text. -/
theorem matchLocDotW_words_none {w post : List Char}
    (hw : ∀ c ∈ w, isWordChar c = true) (hp : ∀ c ∈ post, isLocalChar c = false) :
    matchLocDotW (w ++ post) = Option.none := by
  induction w with
  | nil =>
    cases post with
    | nil => rfl
    | cons c rest => simp [matchLocDotW, hp c (List.mem_cons_self c rest)]
  | cons a w' ih =>
    have ha := hw a (List.mem_cons_self a w')
    have ih' := ih (fun c hc => hw c (List.mem_cons_of_mem a hc))
    simp only [List.cons_append, matchLocDotW, isLocalChar_of_word ha, if_true,
      List.append_eq, ih']
    cases hw' : w' ++ post with
    | nil => simp [hw', matchDotW]
    | cons b rest =>
      have hb : b ≠ '.' := by
        have hbmem : b ∈ w' ++ post := hw' ▸ List.mem_cons_self b rest
        rcases List.mem_append.mp hbmem with hbw | hbp
        · exact word_ne_dot (hw b (List.mem_cons_of_mem a hbw))
        · intro he
          subst he
          have := hp '.' hbp
          simp [isLocalChar] at this
      simp [hw', matchDotW_none_of_ne hb]

/-- `\.\w+` consumes exactly the dot and the word run before inert
text. -/
theorem matchDotW_dot_words {tld post : List Char}
    (htn : tld ≠ []) (htw : ∀ c ∈ tld, isWordChar c = true)
    (hp : ∀ c ∈ post, isLocalChar c = false) :
    matchDotW ('.' :: (tld ++ post)) = some (1 + tld.length) := by
  unfold matchDotW
  have htk : (tld ++ post).takeWhile isWordChar = tld := by
    rw [List.takeWhile_append_of_pos htw]
    cases post with
    | nil => simp
    | cons c rest =>
      have hc : isWordChar c = false := by
        have := hp c (List.mem_cons_self c rest)
        cases hcw : isWordChar c with
        | false => rfl
        | true => rw [isLocalChar_of_word hcw] at this; exact absurd this (by simp)
      simp [List.takeWhile_cons, hc]
  simp [htk, List.isEmpty_eq_false.mpr htn]

/-- `[\w\.-]+\.\w+` fails when starting at the dot itself (no local
character precedes the dot). -/
theorem matchLocDotW_dot_none {tld post : List Char}
    (htn : tld ≠ []) (htw : ∀ c ∈ tld, isWordChar c = true)
    (hp : ∀ c ∈ post, isLocalChar c = false) :
    matchLocDotW ('.' :: (tld ++ post)) = Option.none := by
  have hrec := matchLocDotW_words_none htw hp
  simp only [matchLocDotW, show isLocalChar '.' = true from rfl, if_true,
    List.append_eq, hrec]
  cases htl : tld with
  | nil => exact absurd htl htn
  | cons b rest =>
    have hb : b ≠ '.' := word_ne_dot (htw b (htl ▸ List.mem_cons_self b rest))
    simp [htl, matchDotW_none_of_ne hb]

/-- One-step unfolding of the greedy matcher. -/
theorem matchLocDotW_cons_eq (c : Char) (l : List Char) :
    matchLocDotW (c :: l) =
      if isLocalChar c = true then
        match matchLocDotW l with
        | some n => some (n + 1)
        | Option.none => (matchDotW l).map (· + 1)
      else Option.none := rfl

/-- Greedy backtracking consumes exactly `dom ++ "." ++ tld` before inert
text. -/
theorem matchLocDotW_full {dom tld post : List Char}
    (hdn : dom ≠ []) (hdl : ∀ c ∈ dom, isLocalChar c = true)
    (htn : tld ≠ []) (htw : ∀ c ∈ tld, isWordChar c = true)
    (hp : ∀ c ∈ post, isLocalChar c = false) :
    matchLocDotW (dom ++ '.' :: (tld ++ post)) = some (dom.length + 1 + tld.length) := by
  induction dom with
  | nil => exact absurd rfl hdn
  | cons d dom' ih =>
    have hd := hdl d (List.mem_cons_self d dom')
    cases dom' with
    | nil =>
      rw [show ([d] ++ '.' :: (tld ++ post)) = d :: ('.' :: (tld ++ post)) from rfl,
        matchLocDotW_cons_eq, if_pos hd, matchLocDotW_dot_none htn htw hp,
        matchDotW_dot_words htn htw hp]
      show some (1 + tld.length + 1) = some ([d].length + 1 + tld.length)
      congr 1
      simp only [List.length_singleton]
      omega
    | cons d2 dom'' =>
      have ih' := ih (List.cons_ne_nil d2 dom'')
        (fun c hc => hdl c (List.mem_cons_of_mem d hc))
      rw [show ((d :: d2 :: dom'') ++ '.' :: (tld ++ post)) =
          d :: ((d2 :: dom'') ++ '.' :: (tld ++ post)) from rfl,
        matchLocDotW_cons_eq, if_pos hd, ih']
      show some ((d2 :: dom'').length + 1 + tld.length + 1) =
        some ((d :: d2 :: dom'').length + 1 + tld.length)
      congr 1
      simp only [List.length_cons]
      omega

/-- The email pattern matches exactly the embedded
`loc @ dom . tld` token when the surrounding text cannot extend it. -/
theorem matchEmail_at_email {loc dom tld post : List Char}
    (hln : loc ≠ []) (hll : ∀ c ∈ loc, isLocalChar c = true)
    (hdn : dom ≠ []) (hdl : ∀ c ∈ dom, isLocalChar c = true)
    (htn : tld ≠ []) (htw : ∀ c ∈ tld, isWordChar c = true)
    (hp : ∀ c ∈ post, isLocalChar c = false) :
    matchEmail (loc ++ '@' :: (dom ++ '.' :: (tld ++ post))) =
      some (loc.length + 1 + (dom.length + 1 + tld.length)) := by
  unfold matchEmail
  have htk : (loc ++ '@' :: (dom ++ '.' :: (tld ++ post))).takeWhile isLocalChar =
      loc := by
    rw [List.takeWhile_append_of_pos hll]
    simp [List.takeWhile_cons, show isLocalChar '@' = false from rfl]
  have hdr : (loc ++ '@' :: (dom ++ '.' :: (tld ++ post))).dropWhile isLocalChar =
      '@' :: (dom ++ '.' :: (tld ++ post)) := by
    rw [List.dropWhile_append_of_pos hll]
    simp [List.dropWhile_cons, show isLocalChar '@' = false from rfl]
  rw [htk, hdr, if_neg (by simp [List.isEmpty_eq_false.mpr hln])]
  show Option.map (fun n => loc.length + 1 + n)
    (matchLocDotW (dom ++ '.' :: (tld ++ post))) = _
  rw [matchLocDotW_full hdn hdl htn htw hp]
  rfl

/-- Text with no `[\w\.-]` characters passes through redaction
unchanged. -/
theorem redactEmails_inert {cs : List Char}
    (h : ∀ c ∈ cs, isLocalChar c = false) : redactEmails cs = cs := by
  induction cs with
  | nil => rfl
  | cons c rest ih =>
    rw [redactEmails_cons_none (matchEmail_none_of_notLocal
      (h c (List.mem_cons_self c rest)))]
    rw [ih (fun x hx => h x (List.mem_cons_of_mem c hx))]

/-- Redaction distributes over an inert prefix. -/
theorem redactEmails_append_inert {pre cs : List Char}
    (h : ∀ c ∈ pre, isLocalChar c = false) :
    redactEmails (pre ++ cs) = pre ++ redactEmails cs := by
  induction pre with
  | nil => rfl
  | cons p pre' ih =>
    rw [List.cons_append,
      redactEmails_cons_none (matchEmail_none_of_notLocal
        (h p (List.mem_cons_self p pre'))),
      ih (fun x hx => h x (List.mem_cons_of_mem p hx))]
    rfl

/-- Claim C8: the redaction step of the sanitizer replaces every
substring matching the email-address pattern
`[\w\.-]+@[\w\.-]+\.\w+` (a `local-part@domain.tld`-like token) with the
literal token `[REDACTED]`, and leaves text that does not match the
pattern untouched: an email token embedded between non-extending text is
replaced with exactly `[REDACTED]` while the surrounding text survives
verbatim, and input containing no `@` (hence no match) is returned
entirely unchanged. -/
theorem c8_redaction :
    (∀ pre loc dom tld post : List Char,
       (∀ c ∈ pre, isLocalChar c = false) →
       loc ≠ [] → (∀ c ∈ loc, isLocalChar c = true) →
       dom ≠ [] → (∀ c ∈ dom, isLocalChar c = true) →
       tld ≠ [] → (∀ c ∈ tld, isWordChar c = true) →
       (∀ c ∈ post, isLocalChar c = false) →
       redactEmails (pre ++ (loc ++ '@' :: (dom ++ '.' :: (tld ++ post)))) =
         pre ++ ("[REDACTED]".data ++ post)) ∧
    (∀ cs : List Char, '@' ∉ cs → redactEmails cs = cs) := by
  constructor
  · intro pre loc dom tld post hpre hln hll hdn hdl htn htw hpost
    rw [redactEmails_append_inert hpre]
    congr 1
    cases loc with
    | nil => exact absurd rfl hln
    | cons l0 loc' =>
      have hm := matchEmail_at_email hln hll hdn hdl htn htw hpost
      rw [List.cons_append] at hm
      rw [List.cons_append, redactEmails_cons_match hm]
      congr 1
      have harr : loc' ++ '@' :: (dom ++ '.' :: (tld ++ post)) =
          (loc' ++ '@' :: (dom ++ '.' :: tld)) ++ post := by
        simp [List.append_assoc]
      have hlen : (loc' ++ '@' :: (dom ++ '.' :: tld)).length =
          (l0 :: loc').length + 1 + (dom.length + 1 + tld.length) - 1 := by
        simp only [List.length_append, List.length_cons]
        omega
      rw [harr, List.drop_left' hlen]
      exact redactEmails_inert hpost
  · intro cs h
    induction cs with
    | nil => rfl
    | cons c rest ih =>
      rw [redactEmails_cons_none (matchEmail_none_of_no_at h),
        ih (fun hx => h (List.mem_cons_of_mem c hx))]

/-- Witness for C8: a concrete email embedded in inert text is redacted,
and text without `@` is untouched. -/
theorem c8_redaction_witness :
    redactEmails (" ".data ++ ("bob".data ++ '@' :: ("example".data ++ '.' ::
        ("com".data ++ " !".data)))) = " ".data ++ ("[REDACTED]".data ++ " !".data) ∧
    redactEmails "plain text".data = "plain text".data :=
  ⟨c8_redaction.1 " ".data "bob".data "example".data "com".data " !".data
      (by decide) (by decide) (by decide) (by decide) (by decide) (by decide)
      (by decide) (by decide),
   c8_redaction.2 "plain text".data (by decide)⟩

/-! ## Claim C6: persistence round-trip -/

/-- String append concatenates the underlying character lists. -/
theorem sAppend_data (a b : String) : (a ++ b).data = a.data ++ b.data := by
  cases a
  cases b
  rfl

/-- A literal prefix is consumed exactly. -/
theorem expectLit_append : ∀ (pre cs : List Char), expectLit pre (pre ++ cs) = some cs := by
  intro pre
  induction pre with
  | nil => intro cs; rfl
  | cons p ps ih => intro cs; simp [expectLit, ih]

/-- Parsing after the escape of one tame character peels exactly that
character. -/
theorem parse_escChar_append {c : Char} (hc : tameChar c = true) (tail : List Char) :
    parseStrBody (escChar c ++ tail) =
      (parseStrBody tail).map (fun p => (c :: p.1, p.2)) := by
  by_cases h1 : c = '"'
  · subst h1
    rw [show escChar '"' ++ tail = '\\' :: '"' :: tail from rfl, parseStrBody.eq_def]
    cases hp : parseStrBody tail with
    | none => simp [unescapeChar, hp]
    | some val => obtain ⟨cs, r⟩ := val; simp [unescapeChar, hp]
  by_cases h2 : c = '\\'
  · subst h2
    rw [show escChar '\\' ++ tail = '\\' :: '\\' :: tail from rfl, parseStrBody.eq_def]
    cases hp : parseStrBody tail with
    | none => simp [unescapeChar, hp]
    | some val => obtain ⟨cs, r⟩ := val; simp [unescapeChar, hp]
  by_cases h3 : c = '\n'
  · subst h3
    rw [show escChar '\n' ++ tail = '\\' :: 'n' :: tail from rfl, parseStrBody.eq_def]
    cases hp : parseStrBody tail with
    | none => simp [unescapeChar, hp]
    | some val => obtain ⟨cs, r⟩ := val; simp [unescapeChar, hp]
  by_cases h4 : c = '\t'
  · subst h4
    rw [show escChar '\t' ++ tail = '\\' :: 't' :: tail from rfl, parseStrBody.eq_def]
    cases hp : parseStrBody tail with
    | none => simp [unescapeChar, hp]
    | some val => obtain ⟨cs, r⟩ := val; simp [unescapeChar, hp]
  by_cases h5 : c = '\r'
  · subst h5
    rw [show escChar '\r' ++ tail = '\\' :: 'r' :: tail from rfl, parseStrBody.eq_def]
    cases hp : parseStrBody tail with
    | none => simp [unescapeChar, hp]
    | some val => obtain ⟨cs, r⟩ := val; simp [unescapeChar, hp]
  by_cases h6 : c = '\x08'
  · subst h6
    rw [show escChar '\x08' ++ tail = '\\' :: 'b' :: tail from rfl, parseStrBody.eq_def]
    cases hp : parseStrBody tail with
    | none => simp [unescapeChar, hp]
    | some val => obtain ⟨cs, r⟩ := val; simp [unescapeChar, hp]
  by_cases h7 : c = '\x0c'
  · subst h7
    rw [show escChar '\x0c' ++ tail = '\\' :: 'f' :: tail from rfl, parseStrBody.eq_def]
    cases hp : parseStrBody tail with
    | none => simp [unescapeChar, hp]
    | some val => obtain ⟨cs, r⟩ := val; simp [unescapeChar, hp]
  · have h8 : ¬ c.toNat < 32 := by
      simp only [tameChar, Bool.or_eq_true, decide_eq_true_eq] at hc
      rcases hc with ((((hc | hc) | hc) | hc) | hc) | hc
      · omega
      · exact absurd hc h3
      · exact absurd hc h4
      · exact absurd hc h5
      · exact absurd hc h6
      · exact absurd hc h7
    have hesc : escChar c = [c] := by
      simp [escChar, h1, h2, h3, h4, h5, h6, h7, h8]
    rw [hesc, List.singleton_append, parseStrBody.eq_def]
    cases hp : parseStrBody tail with
    | none => simp [h1, h2, hp]
    | some val => obtain ⟨cs, r⟩ := val; simp [h1, h2, hp]

/-- Round trip for an escaped tame string body followed by the closing
quote. -/
theorem parse_escList {s : List Char} (hs : ∀ c ∈ s, tameChar c = true) :
    ∀ rest, parseStrBody (escList s ++ '"' :: rest) = some (s, rest) := by
  induction s with
  | nil =>
    intro rest
    rw [show escList [] ++ '"' :: rest = '"' :: rest from rfl, parseStrBody.eq_def]
    simp
  | cons c s' ih =>
    intro rest
    have hc := hs c (List.mem_cons_self c s')
    have ih' := ih (fun x hx => hs x (List.mem_cons_of_mem c hx))
    rw [show escList (c :: s') = escChar c ++ escList s' from rfl, List.append_assoc,
      parse_escChar_append hc, ih' rest]
    rfl

/-- Round trip for one serialized optional field value. -/
theorem parseOptStr_dump {v : Option String} (hv : tameOpt v = true) (rest : List Char) :
    parseOptStr ((dumpOptStr v).data ++ rest) = some (v, rest) := by
  cases v with
  | none => rfl
  | some s =>
    have hs : ∀ c ∈ s.data, tameChar c = true := by
      have := hv
      simp only [tameOpt, tameStr, List.all_eq_true] at this
      exact fun c hc => this c hc
    show parseOptStr (('"' :: (escList s.data ++ ['"'])) ++ rest) = some (some s, rest)
    rw [List.cons_append, List.append_assoc]
    show (parseStrBody (escList s.data ++ '"' :: rest)).map
      (fun p => (some (String.mk p.1), p.2)) = some (some s, rest)
    rw [parse_escList hs rest]
    cases s
    rfl

/-- Round trip for one persisted line. -/
theorem parseIssueLine_dump {it : JiraIssue} (h : tameIssue it = true) :
    parseIssueLine (model_dump_json it).data = some it := by
  obtain ⟨⟨⟨⟨⟨⟨⟨⟨h1, h2⟩, h3⟩, h4⟩, h5⟩, h6⟩, h7⟩, h8⟩, h9⟩ :
      ((((((((tameOpt it.id = true ∧ tameOpt it.key = true) ∧ tameOpt it.summary = true) ∧
        tameOpt it.description = true) ∧ tameOpt it.status = true) ∧
        tameOpt it.priority = true) ∧ tameOpt it.created = true) ∧
        tameOpt it.assignee = true) ∧ tameOpt it.project = true) := by
    simpa only [tameIssue, Bool.and_eq_true] using h
  have hlast : ∀ v : Option String, tameOpt v = true →
      parseOptStr ((dumpOptStr v).data ++ "\x7d".data) = some (v, "\x7d".data) :=
    fun v hv => parseOptStr_dump hv "\x7d".data
  have hcl : expectLit "\x7d".data "\x7d".data = some [] := rfl
  simp only [model_dump_json, parseIssueLine, parseFieldAfter, sAppend_data,
    List.append_assoc, expectLit_append, parseOptStr_dump h1, parseOptStr_dump h2,
    parseOptStr_dump h3, parseOptStr_dump h4, parseOptStr_dump h5, parseOptStr_dump h6,
    parseOptStr_dump h7, parseOptStr_dump h8, hlast it.project h9, hcl]

/-- The escape of a tame character never contains a newline. -/
theorem escChar_no_newline {c : Char} (hc : tameChar c = true) :
    '\n' ∉ escChar c := by
  by_cases h1 : c = '"'
  · subst h1; decide
  by_cases h2 : c = '\\'
  · subst h2; decide
  by_cases h3 : c = '\n'
  · subst h3; decide
  by_cases h4 : c = '\t'
  · subst h4; decide
  by_cases h5 : c = '\r'
  · subst h5; decide
  by_cases h6 : c = '\x08'
  · subst h6; decide
  by_cases h7 : c = '\x0c'
  · subst h7; decide
  · have h8 : ¬ c.toNat < 32 := by
      simp only [tameChar, Bool.or_eq_true, decide_eq_true_eq] at hc
      rcases hc with ((((hc | hc) | hc) | hc) | hc) | hc
      · omega
      · exact absurd hc h3
      · exact absurd hc h4
      · exact absurd hc h5
      · exact absurd hc h6
      · exact absurd hc h7
    have hesc : escChar c = [c] := by
      simp [escChar, h1, h2, h3, h4, h5, h6, h7, h8]
    rw [hesc]
    intro hmem
    rcases List.mem_singleton.mp hmem with rfl
    exact h3 rfl

/-- The escape of a tame string never contains a newline. -/
theorem escList_no_newline {s : List Char} (hs : ∀ c ∈ s, tameChar c = true) :
    '\n' ∉ escList s := by
  induction s with
  | nil => simp [escList]
  | cons c s' ih =>
    rw [show escList (c :: s') = escChar c ++ escList s' from rfl]
    intro hmem
    rcases List.mem_append.mp hmem with hm | hm
    · exact escChar_no_newline (hs c (List.mem_cons_self c s')) hm
    · exact ih (fun x hx => hs x (List.mem_cons_of_mem c hx)) hm

/-- A serialized optional field value never contains a newline. -/
theorem dumpOptStr_no_newline {v : Option String} (hv : tameOpt v = true) :
    '\n' ∉ (dumpOptStr v).data := by
  cases v with
  | none => decide
  | some s =>
    have hs : ∀ c ∈ s.data, tameChar c = true := by
      simp only [tameOpt, tameStr, List.all_eq_true] at hv
      exact fun c hc => hv c hc
    show '\n' ∉ '"' :: (escList s.data ++ ['"'])
    intro hmem
    rcases List.mem_cons.mp hmem with hm | hm
    · exact absurd hm.symm (by decide)
    · rcases List.mem_append.mp hm with hm' | hm'
      · exact escList_no_newline hs hm'
      · exact absurd (List.mem_singleton.mp hm').symm (by decide)

/-- A persisted line never contains a newline. -/
theorem dump_no_newline {it : JiraIssue} (h : tameIssue it = true) :
    '\n' ∉ (model_dump_json it).data := by
  obtain ⟨⟨⟨⟨⟨⟨⟨⟨h1, h2⟩, h3⟩, h4⟩, h5⟩, h6⟩, h7⟩, h8⟩, h9⟩ :
      ((((((((tameOpt it.id = true ∧ tameOpt it.key = true) ∧ tameOpt it.summary = true) ∧
        tameOpt it.description = true) ∧ tameOpt it.status = true) ∧
        tameOpt it.priority = true) ∧ tameOpt it.created = true) ∧
        tameOpt it.assignee = true) ∧ tameOpt it.project = true) := by
    simpa only [tameIssue, Bool.and_eq_true] using h
  simp only [model_dump_json, sAppend_data, List.append_assoc, List.mem_append]
  intro hmem
  rcases hmem with hm | hm | hm | hm | hm | hm | hm | hm | hm | hm | hm | hm | hm |
    hm | hm | hm | hm | hm | hm
  · exact absurd hm (by decide)
  · exact dumpOptStr_no_newline h1 hm
  · exact absurd hm (by decide)
  · exact dumpOptStr_no_newline h2 hm
  · exact absurd hm (by decide)
  · exact dumpOptStr_no_newline h3 hm
  · exact absurd hm (by decide)
  · exact dumpOptStr_no_newline h4 hm
  · exact absurd hm (by decide)
  · exact dumpOptStr_no_newline h5 hm
  · exact absurd hm (by decide)
  · exact dumpOptStr_no_newline h6 hm
  · exact absurd hm (by decide)
  · exact dumpOptStr_no_newline h7 hm
  · exact absurd hm (by decide)
  · exact dumpOptStr_no_newline h8 hm
  · exact absurd hm (by decide)
  · exact dumpOptStr_no_newline h9 hm
  · exact absurd hm (by decide)

/-- Splitting consumes one newline-free chunk up to its terminator. -/
theorem splitLinesAux_chunk {line : List Char} (h : '\n' ∉ line) :
    ∀ (acc rest : List Char),
      splitLinesAux acc (line ++ '\n' :: rest) =
        (acc.reverse ++ line) :: splitLinesAux [] rest := by
  induction line with
  | nil =>
    intro acc rest
    simp [splitLinesAux]
  | cons c line' ih =>
    intro acc rest
    have hc : c ≠ '\n' := fun he => h (he ▸ List.mem_cons_self c line')
    have ih' := ih (fun hx => h (List.mem_cons_of_mem c hx))
    rw [List.cons_append,
      show splitLinesAux acc (c :: (line' ++ '\n' :: rest)) =
        if c = '\n' then acc.reverse :: splitLinesAux [] (line' ++ '\n' :: rest)
        else splitLinesAux (c :: acc) (line' ++ '\n' :: rest) from rfl,
      if_neg hc, ih' (c :: acc) rest]
    simp

/-- The lines of the persisted content are exactly the serialized
records, in order. -/
theorem splitLines_jsonl {data : List JiraIssue}
    (h : ∀ it ∈ data, tameIssue it = true) :
    splitLines (jsonlContent data).data =
      data.map (fun it => (model_dump_json it).data) := by
  induction data with
  | nil => rfl
  | cons it rest ih =>
    have hit := h it (List.mem_cons_self it rest)
    have ih' := ih (fun x hx => h x (List.mem_cons_of_mem it hx))
    show splitLinesAux [] ((model_dump_json it ++ "\n" ++ jsonlContent rest)).data = _
    rw [sAppend_data, sAppend_data]
    rw [show ("\n".data : List Char) = ['\n'] from rfl, List.append_assoc,
      show (['\n'] ++ (jsonlContent rest).data : List Char) =
        '\n' :: (jsonlContent rest).data from rfl]
    rw [splitLinesAux_chunk (dump_no_newline hit)]
    simp only [List.reverse_nil, List.nil_append, List.map_cons]
    exact congrArg _ ih'

/-- Parsing each serialized line recovers each record. -/
theorem map_parse_dump :
    ∀ (l : List JiraIssue), (∀ it ∈ l, tameIssue it = true) →
      (l.map (fun it => (model_dump_json it).data)).map parseIssueLine = l.map some := by
  intro l h
  induction l with
  | nil => rfl
  | cons it rest ih =>
    simp only [List.map_cons]
    rw [parseIssueLine_dump (h it (List.mem_cons_self it rest)),
      ih (fun x hx => h x (List.mem_cons_of_mem it hx))]

/-- Claim C6: for every sequence of `N` (tame) NormalizedIssue records and
target name, the writer replaces the target's content with exactly one
newline-terminated serialized line per record in input order, regardless
of previous content; reading the target back line-by-line yields `N`
lines, each independently parseable back into the original record
(round-trip). -/
theorem c6_save_roundtrip :
    ∀ (data : List JiraIssue) (filename : String) (files : Files),
      (∀ it ∈ data, tameIssue it = true) →
      ∃ files2 content,
        save_to_jsonl Option.none data filename files = Except.ok files2 ∧
        lookupFile files2 filename = some content ∧
        (splitLines content.data).length = data.length ∧
        (splitLines content.data).map parseIssueLine = data.map some := by
  intro data filename files h
  refine ⟨(filename, jsonlContent data) :: files, jsonlContent data, rfl, ?_, ?_, ?_⟩
  · simp [lookupFile]
  · rw [splitLines_jsonl h]
    simp
  · rw [splitLines_jsonl h]
    exact map_parse_dump data h

/-- Witness for C6 on two concrete records (with quotes, backslashes and
newlines in the field values) written over existing content. -/
theorem c6_save_roundtrip_witness :
    ∃ files2 content,
      save_to_jsonl Option.none
        [⟨some "1", Option.none, some "a\"b\\c\nd", some "", Option.none, some "x",
          Option.none, Option.none, some "Core"⟩,
         ⟨Option.none, some "K-2", Option.none, some "done", Option.none, Option.none,
          some "2024-01-01", some "Ann", Option.none⟩]
        "out.jsonl" [("out.jsonl", "old content")] = Except.ok files2 ∧
      lookupFile files2 "out.jsonl" = some content ∧
      (splitLines content.data).length =
        ([⟨some "1", Option.none, some "a\"b\\c\nd", some "", Option.none, some "x",
           Option.none, Option.none, some "Core"⟩,
          ⟨Option.none, some "K-2", Option.none, some "done", Option.none, Option.none,
           some "2024-01-01", some "Ann", Option.none⟩] : List JiraIssue).length ∧
      (splitLines content.data).map parseIssueLine =
        ([⟨some "1", Option.none, some "a\"b\\c\nd", some "", Option.none, some "x",
           Option.none, Option.none, some "Core"⟩,
          ⟨Option.none, some "K-2", Option.none, some "done", Option.none, Option.none,
           some "2024-01-01", some "Ann", Option.none⟩] : List JiraIssue).map some :=
  c6_save_roundtrip
    [⟨some "1", Option.none, some "a\"b\\c\nd", some "", Option.none, some "x",
      Option.none, Option.none, some "Core"⟩,
     ⟨Option.none, some "K-2", Option.none, some "done", Option.none, Option.none,
      some "2024-01-01", some "Ann", Option.none⟩]
    "out.jsonl" [("out.jsonl", "old content")] (by decide)
